import Mathlib

/-!
# Verification of the Translator real-time audio pipeline

Shallow embedding of the core of the browser-based real-time speech
translator: the base64 transport codec (`encode`/`decode`), the PCM
sample codec (`Int16Array` write semantics and `decodeAudioData`), the
playback scheduler bookkeeping (`nextStartTimeRef` / `sourcesRef`), the
session lifecycle (`startSession` / `stopSession`), the conversation log
(`turnComplete` handlers of `onmessage`), and the request/response
translation call (`translateText`).

Times and audio samples are modelled as rationals (`ℚ`): the source uses
IEEE doubles, but every property proved here is an exact-arithmetic
property of the scheduling and quantization formulas, not a
floating-point rounding property.
-/

namespace Translator

/-! ## Status values (`types.ts`: `AppStatus`) -/

/-- The `AppStatus` union type of `types.ts`:
`'Klar' | 'Lytter...' | 'Oversætter...' | 'Taler...' | 'Error'`. -/
inductive AppStatus where
  | klar
  | lytter
  | oversaetter
  | taler
  | error
deriving DecidableEq, Repr

/-! ## Playback scheduler

State touched by the audio-output branch of `onmessage` (lines 156-171 of
the first variant) and by the `interrupted` branch (lines 185-189):
`nextStartTimeRef.current : number` and `sourcesRef.current : Set<AudioBufferSourceNode>`.
Sources are identified by a `ℕ` id; the set is modelled as the list of
ids currently active. -/

/-- Scheduler state: `nextStartTimeRef.current` and the contents of
`sourcesRef.current`. -/
structure SchedState where
  nextStartTime : ℚ
  active : List ℕ
deriving DecidableEq, Repr

/-- The audio-output branch of `onmessage`:
`nextStartTimeRef.current = Math.max(nextStartTimeRef.current, ctx.currentTime);`
`source.start(nextStartTimeRef.current);`
`nextStartTimeRef.current += audioBuffer.duration;`
`sourcesRef.current.add(source);`
Arguments: the clock value `ctx.currentTime` read at this call, the
buffer's `duration`, and the id of the fresh source node.  Returns the
new state together with the start time passed to `source.start`. -/
def scheduleChunk (s : SchedState) (now dur : ℚ) (srcId : ℕ) : SchedState × ℚ :=
  let start := max s.nextStartTime now
  (⟨start + dur, srcId :: s.active⟩, start)

/-- The `interrupted` branch of `onmessage`:
`sourcesRef.current.forEach(s => s.stop()); sourcesRef.current.clear();`
`nextStartTimeRef.current = 0;`
Returns the new state together with the list of sources that received a
`stop()` call. -/
def handleInterrupted (s : SchedState) : SchedState × List ℕ :=
  (⟨0, []⟩, s.active)

/-- A run of the audio-output branch over a sequence of chunks with no
intervening interrupt.  Input: the current `nextStartTimeRef` value and,
for each chunk, the clock value `ctx.currentTime` observed when it is
scheduled and its duration.  Output: the `(startTime, duration)` pair of
each scheduled chunk, in order. -/
def scheduleRun : ℚ → List (ℚ × ℚ) → List (ℚ × ℚ)
  | _, [] => []
  | anchor, (now, dur) :: rest =>
    let start := max anchor now
    (start, dur) :: scheduleRun (start + dur) rest

/-! ## Session lifecycle (`stopSession`, `startSession`) -/

/-- The release actions `stopSession` can perform:
`sessionRef.current.close()`, `stream.getTracks().forEach(t => t.stop())`,
`inputAudioContextRef.current.close()`. -/
inductive ReleaseAction where
  | closeSession
  | stopTracks
  | closeInputCtx
deriving DecidableEq, Repr

/-- The mutable state read and written by `stopSession`:
`isRecording`, `sessionRef.current`, the `stream` state variable,
`inputAudioContextRef.current`, and `status`.  A `some ()` is a live
(non-null) handle, `none` is null. -/
structure StopState where
  isRecording : Bool
  session : Option Unit
  stream : Option Unit
  inputCtx : Option Unit
  status : AppStatus
deriving DecidableEq, Repr

/-- `stopSession` (lines 70-86 of the first variant): sets
`isRecording` to false; closes and nulls the session handle if non-null;
stops the tracks and nulls the stream if non-null; closes and nulls the
input audio context if non-null; sets status to `'Klar'`.  Returns the
new state together with the release actions actually performed. -/
def stopSession (s : StopState) : StopState × List ReleaseAction :=
  (⟨false, none, none, none, AppStatus.klar⟩,
   (if s.session.isSome then [ReleaseAction.closeSession] else []) ++
   (if s.stream.isSome then [ReleaseAction.stopTracks] else []) ++
   (if s.inputCtx.isSome then [ReleaseAction.closeInputCtx] else []))

/-- How far `startSession` gets before an exception is thrown (caught by
its `catch` block), as seen from outside: `micDenied` means
`getUserMedia` rejected (e.g. permission denial), `connectFailed` means
`ai.live.connect` rejected, `allOk` means no failure. -/
inductive StartOutcome where
  | micDenied
  | connectFailed
  | allOk
deriving DecidableEq, Repr

/-- Resource/status state of the app relevant to `startSession`
(lines 88-206 of the first variant): whether the input and output audio
contexts are open, whether the microphone stream is live, whether a
session handle is held, and the exposed status. -/
structure AppState where
  status : AppStatus
  inputCtxOpen : Bool
  outputCtxOpen : Bool
  micOpen : Bool
  sessionOpen : Bool
deriving DecidableEq, Repr

/-- `startSession`: sets status to `'Lytter...'`; creates the input and
output audio contexts and stores them in the refs; awaits
`getUserMedia`; awaits `ai.live.connect`.  The `catch` block
(lines 202-205) only logs and does `setStatus('Error')`: it closes
nothing.  The argument says which awaited step, if any, throws. -/
def startSession (s : AppState) (outcome : StartOutcome) : AppState :=
  let s1 : AppState :=
    { s with status := AppStatus.lytter, inputCtxOpen := true, outputCtxOpen := true }
  match outcome with
  | StartOutcome.micDenied => { s1 with status := AppStatus.error }
  | StartOutcome.connectFailed =>
    { s1 with micOpen := true, status := AppStatus.error }
  | StartOutcome.allOk => { s1 with micOpen := true, sessionOpen := true }

/-! ## Conversation log (`turnComplete` handlers of `onmessage`) -/

/-- A history entry as built by the `turnComplete` handlers
(`HistoryItem` of `types.ts` minus the wall-clock timestamp, which is
not a function of the session state). -/
structure HistoryEntry where
  originalText : String
  translatedText : String
deriving DecidableEq, Repr

/-- The part of a `LiveServerMessage` that `onmessage` inspects:
`serverContent.inputTranscription?.text`,
`serverContent.outputTranscription?.text`,
`serverContent.turnComplete`, `serverContent.interrupted`. -/
structure ServerMsg where
  inputTranscription : Option String
  outputTranscription : Option String
  turnComplete : Bool
  interrupted : Bool
deriving DecidableEq, Repr

/-- Transcript-and-history state read by `onmessage`: the `transcript`
and `translation` state variables as captured by the handler's closure
(their values when the message is processed), and the `history` list. -/
structure ConvState where
  transcript : String
  translation : String
  history : List HistoryEntry
deriving DecidableEq, Repr

/-- The entry the `turnComplete` handlers prepend:
`{originalText: transcript, translatedText: translation, ...}` built
from the closure values of `transcript` and `translation`. -/
def mkHistoryEntry (s : ConvState) : HistoryEntry :=
  ⟨s.transcript, s.translation⟩

/-- `onmessage` of the first variant (lines 146-189), restricted to its
transcript/history effect.  Transcriptions use functional updates
`setTranscript(prev => message...text || prev)`: an absent or empty
text keeps the previous value.  The `turnComplete` branch
(lines 173-183) prepends a history entry unconditionally. -/
def onmessageFirst (s : ConvState) (m : ServerMsg) : ConvState :=
  let transcript1 :=
    match m.inputTranscription with
    | some t => if t = "" then s.transcript else t
    | none => s.transcript
  let translation1 :=
    match m.outputTranscription with
    | some t => if t = "" then s.translation else t
    | none => s.translation
  let history1 :=
    if m.turnComplete then mkHistoryEntry s :: s.history else s.history
  ⟨transcript1, translation1, history1⟩

/-- `onmessage` of the guarded variant (lines 933-980), restricted to
its transcript/history effect.  Transcriptions are set directly:
`setTranscript(message.serverContent.inputTranscription.text)`.  The
`turnComplete` branch (lines 960-972) prepends a history entry only
under `if (transcript && translation)`, i.e. only when both closure
values are non-empty strings. -/
def onmessageGuarded (s : ConvState) (m : ServerMsg) : ConvState :=
  let transcript1 :=
    match m.inputTranscription with
    | some t => t
    | none => s.transcript
  let translation1 :=
    match m.outputTranscription with
    | some t => t
    | none => s.translation
  let history1 :=
    if m.turnComplete ∧ s.transcript ≠ "" ∧ s.translation ≠ "" then
      mkHistoryEntry s :: s.history
    else s.history
  ⟨transcript1, translation1, history1⟩

/-! ## Base64 transport codec (`encode` / `decode`)

`encode` is `btoa(String.fromCharCode(...bytes))` and `decode` is
`atob` followed by `charCodeAt`, i.e. standard base64 over raw bytes.
Bytes are `ℕ` values (< 256 for well-formed input, as guaranteed by
`Uint8Array` at every call site). -/

/-- The base64 alphabet used by `btoa`/`atob`. -/
def b64Alphabet : List Char :=
  "ABCDEFGHIJKLMNOPQRSTUVWXYZabcdefghijklmnopqrstuvwxyz0123456789+/".data

/-- Digit value `n` (0-63) as a base64 character. -/
def b64Char (n : ℕ) : Char := b64Alphabet.getD n 'A'

/-- Index of a character in the base64 alphabet (used by `atob`). -/
def b64Index (c : Char) : ℕ := b64Alphabet.indexOf c

/-- `encode` (lines 8-15): bytes to a base64 character sequence, with
`=` padding, exactly as `btoa` groups 3 bytes into 4 characters. -/
def encode : List ℕ → List Char
  | [] => []
  | [a] =>
    [b64Char (a / 4), b64Char (a % 4 * 16), '=', '=']
  | [a, b] =>
    [b64Char (a / 4), b64Char (a % 4 * 16 + b / 16), b64Char (b % 16 * 4), '=']
  | a :: b :: c :: rest =>
    b64Char (a / 4) :: b64Char (a % 4 * 16 + b / 16) ::
      b64Char (b % 16 * 4 + c / 64) :: b64Char (c % 64) :: encode rest

/-- `decode` (lines 17-25): base64 characters back to bytes, exactly as
`atob` consumes 4 characters per 3 bytes, with `=` padding cutting the
final group short. -/
def decode : List Char → List ℕ
  | w :: x :: y :: z :: rest =>
    let vw := b64Index w
    let vx := b64Index x
    let vy := b64Index y
    let vz := b64Index z
    if z = '=' then
      if y = '=' then [vw * 4 + vx / 16]
      else [vw * 4 + vx / 16, vx % 16 * 16 + vy / 4]
    else
      (vw * 4 + vx / 16) :: (vx % 16 * 16 + vy / 4) :: (vy % 4 * 64 + vz) :: decode rest
  | _ => []

/-! ## PCM sample codec -/

/-- JavaScript `ToInt16` conversion: the value an `Int16Array` cell
holds after an integer `n` is stored into it (wrap-around two's
complement, no clamping). -/
def toInt16 (n : ℤ) : ℤ := (n + 32768) % 65536 - 32768

/-- JavaScript number-to-integer truncation (`ToIntegerOrInfinity`):
round toward zero. -/
def ratTrunc (x : ℚ) : ℤ := if 0 ≤ x then ⌊x⌋ else ⌈x⌉

/-- The per-sample encode step of `scriptProcessor.onaudioprocess`
(lines 125-141): `int16[i] = inputData[i] * 32768` — scale by 32768,
truncate, and wrap into a 16-bit signed cell. -/
def encodeSample (x : ℚ) : ℤ := toInt16 (ratTrunc (x * 32768))

/-- The bytes of an `Int16Array` viewed through
`new Uint8Array(int16.buffer)`: each 16-bit value in little-endian
order (low byte first). -/
def bytesOfInt16LE : List ℤ → List ℕ
  | [] => []
  | n :: rest =>
    let u := (n % 65536).toNat
    u % 256 :: u / 256 :: bytesOfInt16LE rest

/-- The 16-bit values of `new Int16Array(data.buffer)`: consecutive
little-endian byte pairs reinterpreted as signed 16-bit integers.  A
trailing odd byte never occurs on the paths proved below because the
`Int16Array` constructor rejects odd byte lengths first. -/
def int16OfBytesLE : List ℕ → List ℤ
  | lo :: hi :: rest => toInt16 ((lo : ℤ) + 256 * (hi : ℤ)) :: int16OfBytesLE rest
  | _ => []

/-- `decodeAudioData` (lines 27-44) as an `Except`:
`new Int16Array(data.buffer)` throws a `RangeError` when the byte
length is odd; `ctx.createBuffer(numChannels, frameCount, sampleRate)`
throws a `NotSupportedError` when the channel count is outside 1-32 or
the (Web-IDL-truncated) frame count is zero; otherwise the planar
result holds `dataInt16[i * numChannels + channel] / 32768` for each
channel and whole frame (writes past the end of a channel's
`Float32Array`, which occur when `frameCount` is fractional, are
silently discarded by the platform). -/
def decodeAudioData (data : List ℕ) (numChannels : ℕ) : Except String (List (List ℚ)) :=
  if data.length % 2 ≠ 0 then Except.error "RangeError"
  else
    let dataInt16 := int16OfBytesLE data
    let frameCount := dataInt16.length / numChannels
    if numChannels = 0 ∨ 32 < numChannels ∨ frameCount = 0 then
      Except.error "NotSupportedError"
    else
      Except.ok ((List.range numChannels).map fun channel =>
        (List.range frameCount).map fun i =>
          ((dataInt16.getD (i * numChannels + channel) 0 : ℤ) : ℚ) / 32768)

/-- The full outbound chunk encoding of `onaudioprocess`: float samples
to 16-bit PCM to raw bytes to base64
(`encode(new Uint8Array(int16.buffer))`). -/
def encodeChunk (samples : List ℚ) : List Char :=
  encode (bytesOfInt16LE (samples.map encodeSample))

/-- The inbound decode path for the mono (`numChannels = 1`) call sites
of `decodeAudioData`: base64 to bytes (`decode`), bytes to 16-bit
little-endian samples (`new Int16Array(data.buffer)`), each divided by
32768 (line 40). -/
def decodeChunk (chars : List Char) : List ℚ :=
  (int16OfBytesLE (decode chars)).map fun n => ((n : ℤ) : ℚ) / 32768

/-! ## Request/response translation (`services/geminiService.ts`) -/

/-- Outcome of the awaited `ai.models.generateContent` call:
`failure` means the promise rejected (caught by the `catch` block);
`ok t` means it resolved with `response.text = t` (`none` models an
absent/undefined `text` field). -/
inductive BackendResult where
  | failure
  | ok (text : Option String)
deriving DecidableEq, Repr

/-- JavaScript `String.prototype.trim`: strip leading and trailing
whitespace characters (restricted here to ASCII whitespace, which is
all the properties below exercise). -/
def jsTrim (s : String) : String :=
  String.mk (((s.data.dropWhile Char.isWhitespace).reverse.dropWhile
    Char.isWhitespace).reverse)

/-- `translateText` (`geminiService.ts` lines 7-29).  Blank input (after
`trim`) returns `''` without calling the backend.  Otherwise the result
is `response.text?.trim() || 'Translation failed'` on success and
`'Error in translation service'` when the call throws.  The target
language only appears inside the prompt, so it does not affect which
branch is taken. -/
def translateText (text : String) (targetLang : String) (backend : BackendResult) : String :=
  if jsTrim text = "" then ""
  else
    match backend with
    | BackendResult.failure => "Error in translation service"
    | BackendResult.ok t =>
      let trimmed := jsTrim (t.getD "")
      if trimmed = "" then "Translation failed" else trimmed

/-! ## Base64 codec lemmas and theorems (C10) -/

/-- Decoding inverts encoding on each alphabet digit. -/
theorem b64Index_b64Char : ∀ n : ℕ, n < 64 → b64Index (b64Char n) = n := by decide

/-- No alphabet digit is the padding character. -/
theorem b64Char_ne_pad : ∀ n : ℕ, n < 64 → b64Char n ≠ '=' := by decide

/-- Shared helper: base64 decoding inverts encoding on byte sequences. -/
theorem decode_encode : ∀ bs : List ℕ, (∀ b ∈ bs, b < 256) → decode (encode bs) = bs
  | [], _ => rfl
  | [a], h => by
    have ha : a < 256 := h a (by simp)
    have e1 : b64Index (b64Char (a / 4)) = a / 4 := b64Index_b64Char _ (by omega)
    have e2 : b64Index (b64Char (a % 4 * 16)) = a % 4 * 16 := b64Index_b64Char _ (by omega)
    simp [encode, decode, e1, e2]
    omega
  | [a, b], h => by
    have ha : a < 256 := h a (by simp)
    have hb : b < 256 := h b (by simp)
    have e1 : b64Index (b64Char (a / 4)) = a / 4 := b64Index_b64Char _ (by omega)
    have e2 : b64Index (b64Char (a % 4 * 16 + b / 16)) = a % 4 * 16 + b / 16 :=
      b64Index_b64Char _ (by omega)
    have e3 : b64Index (b64Char (b % 16 * 4)) = b % 16 * 4 := b64Index_b64Char _ (by omega)
    have n3 : b64Char (b % 16 * 4) ≠ '=' := b64Char_ne_pad _ (by omega)
    simp [encode, decode, e1, e2, e3, n3]
    omega
  | a :: b :: c :: rest, h => by
    have ha : a < 256 := h a (by simp)
    have hb : b < 256 := h b (by simp)
    have hc : c < 256 := h c (by simp)
    have hrest : ∀ x ∈ rest, x < 256 := fun x hx => h x (by simp [hx])
    have ih := decode_encode rest hrest
    have e1 : b64Index (b64Char (a / 4)) = a / 4 := b64Index_b64Char _ (by omega)
    have e2 : b64Index (b64Char (a % 4 * 16 + b / 16)) = a % 4 * 16 + b / 16 :=
      b64Index_b64Char _ (by omega)
    have e3 : b64Index (b64Char (b % 16 * 4 + c / 64)) = b % 16 * 4 + c / 64 :=
      b64Index_b64Char _ (by omega)
    have e4 : b64Index (b64Char (c % 64)) = c % 64 := b64Index_b64Char _ (by omega)
    have n4 : b64Char (c % 64) ≠ '=' := b64Char_ne_pad _ (by omega)
    simp [encode, decode, e1, e2, e3, e4, n4, ih]
    omega

/-- C10: the base64 transport layer is lossless — decoding an encoded
byte sequence returns it exactly (bytes are `Uint8Array` entries, so
below 256). -/
theorem decode_encode_roundtrip (bs : List ℕ) (h : ∀ b ∈ bs, b < 256) :
    decode (encode bs) = bs :=
  decode_encode bs h

/-- Witness for C10 on a concrete byte array spanning all padding
shapes. -/
theorem decode_encode_roundtrip_witness :
    (∀ b ∈ [0, 128, 255, 7], b < 256) ∧ decode (encode [0, 128, 255, 7]) = [0, 128, 255, 7] :=
  ⟨by decide, decode_encode_roundtrip [0, 128, 255, 7] (by decide)⟩

/-! ## PCM sample codec lemmas and theorems (C6) -/

/-- `toInt16` always lands in the signed 16-bit range. -/
theorem toInt16_range (n : ℤ) : -32768 ≤ toInt16 n ∧ toInt16 n < 32768 := by
  unfold toInt16
  omega

/-- `toInt16` is the identity on the signed 16-bit range. -/
theorem toInt16_of_range (n : ℤ) (h1 : -32768 ≤ n) (h2 : n < 32768) : toInt16 n = n := by
  unfold toInt16
  omega

/-- Every byte produced by the little-endian serialization is below 256. -/
theorem bytesOfInt16LE_lt (ns : List ℤ) : ∀ b ∈ bytesOfInt16LE ns, b < 256 := by
  induction ns with
  | nil => simp [bytesOfInt16LE]
  | cons n rest ih =>
    intro b hb
    simp only [bytesOfInt16LE, List.mem_cons] at hb
    rcases hb with h | h | h
    · subst h; omega
    · subst h; omega
    · exact ih b h

/-- Little-endian 16-bit serialization round-trips on in-range values. -/
theorem int16OfBytesLE_bytesOfInt16LE : ∀ ns : List ℤ,
    (∀ n ∈ ns, -32768 ≤ n ∧ n < 32768) → int16OfBytesLE (bytesOfInt16LE ns) = ns := by
  intro ns
  induction ns with
  | nil => intro _; rfl
  | cons n rest ih =>
    intro h
    have hn := h n (List.mem_cons_self _ _)
    have hrest := fun x hx => h x (List.mem_cons_of_mem _ hx)
    simp only [bytesOfInt16LE, int16OfBytesLE, ih hrest, List.cons.injEq, and_true]
    unfold toInt16
    omega

/-- The encoded sample of any input is in signed 16-bit range. -/
theorem encodeSample_range (x : ℚ) : -32768 ≤ encodeSample x ∧ encodeSample x < 32768 :=
  toInt16_range _

/-- Shared helper: the full encode-decode pipeline equals per-sample
quantization — each sample comes back as its truncated-and-wrapped
16-bit value divided by 32768. -/
theorem decodeChunk_encodeChunk (samples : List ℚ) :
    decodeChunk (encodeChunk samples)
      = samples.map fun x => ((encodeSample x : ℤ) : ℚ) / 32768 := by
  unfold decodeChunk encodeChunk
  rw [decode_encode _ (bytesOfInt16LE_lt _),
    int16OfBytesLE_bytesOfInt16LE _ fun n hn => ?_, List.map_map]
  · rfl
  · obtain ⟨x, _, rfl⟩ := List.mem_map.mp hn
    exact encodeSample_range x

/-- Truncation toward zero moves a rational by strictly less than 1. -/
theorem ratTrunc_close (y : ℚ) : |((ratTrunc y : ℤ) : ℚ) - y| < 1 := by
  unfold ratTrunc
  split
  · next hpos =>
    have h1 := Int.floor_le y
    have h2 := Int.lt_floor_add_one y
    rw [abs_sub_lt_iff]
    constructor <;> linarith
  · next hneg =>
    have h1 := Int.le_ceil y
    have h2 := Int.ceil_lt_add_one y
    rw [abs_sub_lt_iff]
    constructor <;> linarith

/-- For samples in `[-1, 1)` the scaled truncation stays in signed
16-bit range, so the `Int16Array` store does not wrap. -/
theorem ratTrunc_scaled_range (x : ℚ) (h1 : -1 ≤ x) (h2 : x < 1) :
    -32768 ≤ ratTrunc (x * 32768) ∧ ratTrunc (x * 32768) < 32768 := by
  unfold ratTrunc
  split
  · next hpos =>
    constructor
    · have := Int.floor_nonneg.mpr hpos
      omega
    · have hlt : (x * 32768 : ℚ) < ((32768 : ℤ) : ℚ) := by push_cast; nlinarith
      have : ⌊x * 32768⌋ < (32768 : ℤ) := Int.floor_lt.mpr hlt
      omega
  · next hneg =>
    push_neg at hneg
    have hub : ⌈x * 32768⌉ ≤ (0 : ℤ) := by
      refine Int.ceil_le.mpr ?_
      push_cast
      nlinarith
    have hlb : (-32768 : ℤ) ≤ ⌈x * 32768⌉ := by
      have hge : ((-32768 : ℤ) : ℚ) ≤ x * 32768 := by push_cast; nlinarith
      have hmono := Int.ceil_mono hge
      simpa using hmono
    omega

/-- Per-sample quantization bound for in-range, non-wrapping samples. -/
theorem quantization_bound (x : ℚ) (h1 : -1 ≤ x) (h2 : x < 1) :
    |((encodeSample x : ℤ) : ℚ) / 32768 - x| ≤ 1 / 32768 := by
  have hr := ratTrunc_scaled_range x h1 h2
  unfold encodeSample
  rw [toInt16_of_range _ hr.1 hr.2]
  have hb := ratTrunc_close (x * 32768)
  have heq : ((ratTrunc (x * 32768) : ℤ) : ℚ) / 32768 - x
      = (((ratTrunc (x * 32768) : ℤ) : ℚ) - x * 32768) / 32768 := by ring
  rw [heq, abs_div, abs_of_pos (by norm_num : (0 : ℚ) < 32768)]
  rw [div_le_div_iff₀ (by norm_num) (by norm_num)]
  nlinarith [le_of_lt hb]

/-- C6: counterexample.  The in-range sample `1.0` scales to 32768,
which wraps to -32768 in the `Int16Array` store, so the round-tripped
sample is `-1`: an error of 2, far above the claimed `1/32768` bound. -/
theorem sample_one_wraps_to_minus_one :
    decodeChunk (encodeChunk [1]) = [-1] ∧ ¬(|(-1 : ℚ) - 1| ≤ 1 / 32768) := by
  constructor
  · rw [decodeChunk_encodeChunk]
    have h : encodeSample 1 = -32768 := by
      have ht : ratTrunc ((1 : ℚ) * 32768) = 32768 := by
        unfold ratTrunc
        rw [if_pos (by norm_num)]
        norm_num
      unfold encodeSample toInt16
      rw [ht]
      norm_num
    simp only [List.map_cons, List.map_nil, h]
    norm_num
  · have h2 : |(-1 : ℚ) - 1| = 2 := by
      rw [show (-1 : ℚ) - 1 = -2 by norm_num, abs_neg, abs_of_pos]
      · norm_num
    rw [h2]
    norm_num

/-- C6 (amended): for every sample sequence with each sample in
`[-1, 1)` (excluding 1, where the 16-bit store wraps), encode followed
by decode returns a sequence of the same length whose per-sample
absolute error is at most `1/32768`. -/
theorem pcm_roundtrip_quantization (samples : List ℚ)
    (h : ∀ x ∈ samples, -1 ≤ x ∧ x < 1) :
    (decodeChunk (encodeChunk samples)).length = samples.length ∧
      ∀ i, i < samples.length →
        |(decodeChunk (encodeChunk samples)).getD i 0 - samples.getD i 0| ≤ 1 / 32768 := by
  have hmap := decodeChunk_encodeChunk samples
  constructor
  · rw [hmap, List.length_map]
  · intro i hi
    have hi' : i < (samples.map fun x => ((encodeSample x : ℤ) : ℚ) / 32768).length := by
      simpa using hi
    rw [hmap, List.getD_eq_getElem _ _ hi', List.getD_eq_getElem _ _ hi,
      List.getElem_map]
    have hmem : samples[i] ∈ samples := List.getElem_mem _
    exact quantization_bound _ (h _ hmem).1 (h _ hmem).2

/-- Witness for C6 (amended) on the singleton sequence `[1/2]`. -/
theorem pcm_roundtrip_quantization_witness :
    (∀ x ∈ [(1 : ℚ) / 2], -1 ≤ x ∧ x < 1) ∧
      (decodeChunk (encodeChunk [(1 : ℚ) / 2])).length = 1 := by
  have h : ∀ x ∈ [(1 : ℚ) / 2], -1 ≤ x ∧ x < 1 := by
    intro x hx
    simp only [List.mem_singleton] at hx
    subst hx
    norm_num
  exact ⟨h, by simpa using (pcm_roundtrip_quantization [(1 : ℚ) / 2] h).1⟩

/-! ## Chunk decoder theorems (C7) -/

/-- The 16-bit view holds half as many elements as the byte buffer
(rounding down, as the `Int16Array` element count does). -/
theorem int16OfBytesLE_length : ∀ bs : List ℕ, (int16OfBytesLE bs).length = bs.length / 2
  | [] => rfl
  | [_] => by simp [int16OfBytesLE]
  | lo :: hi :: rest => by
    simp only [int16OfBytesLE, List.length_cons, int16OfBytesLE_length rest]
    omega

/-- Element `k` of the 16-bit view combines bytes `2k` (low) and
`2k + 1` (high). -/
theorem int16OfBytesLE_getD : ∀ (bs : List ℕ) (k : ℕ), 2 * k + 1 < bs.length →
    (int16OfBytesLE bs).getD k 0
      = toInt16 (((bs.getD (2 * k) 0 : ℕ) : ℤ) + 256 * ((bs.getD (2 * k + 1) 0 : ℕ) : ℤ))
  | [], k, h => by simp at h
  | [x], k, h => by simp at h
  | lo :: hi :: rest, 0, h => by simp [int16OfBytesLE]
  | lo :: hi :: rest, k + 1, h => by
    have hlen : 2 * k + 1 < rest.length := by
      simp only [List.length_cons] at h
      omega
    have ih := int16OfBytesLE_getD rest k hlen
    have e1 : (lo :: hi :: rest).getD (2 * (k + 1)) 0 = rest.getD (2 * k) 0 := by
      rw [show 2 * (k + 1) = 2 * k + 1 + 1 by omega, List.getD_cons_succ, List.getD_cons_succ]
    have e2 : (lo :: hi :: rest).getD (2 * (k + 1) + 1) 0 = rest.getD (2 * k + 1) 0 := by
      rw [show 2 * (k + 1) + 1 = 2 * k + 1 + 1 + 1 by omega, List.getD_cons_succ,
        List.getD_cons_succ]
    rw [e1, e2, ← ih]
    simp only [int16OfBytesLE, List.getD_cons_succ]

/-- C7: counterexample.  With 2 channels and 6 bytes — an even byte
count that is not a multiple of `2 × channels = 4` — the decoder does
not fail: the fractional frame count `1.5` is truncated by the platform
to 1 and a one-frame-per-channel buffer is returned. -/
theorem six_bytes_two_channels_succeeds :
    decodeAudioData [0, 0, 0, 0, 0, 0] 2 = Except.ok [[0], [0]] ∧ 6 % (2 * 2) ≠ 0 := by
  constructor
  · simp [decodeAudioData, int16OfBytesLE, toInt16, List.range_succ]
  · decide

set_option maxRecDepth 4000 in
/-- C7 (amended): for a channel count the platform accepts (1-32), the
decoder fails iff the byte length is odd (the `Int16Array`
reinterpretation throws) or yields zero whole frames (`createBuffer`
rejects a zero length); whenever the byte length is a non-zero multiple
of `2 × channels` it succeeds, returning one list per channel whose
`i`-th sample is the signed 16-bit little-endian value of bytes
`2(i·channels + channel)` and the following byte, divided by 32768. -/
theorem decodeAudioData_result (data : List ℕ) (c : ℕ) (h1 : 1 ≤ c) (h2 : c ≤ 32) :
    ((∃ msg, decodeAudioData data c = Except.error msg) ↔
        data.length % 2 ≠ 0 ∨ data.length / 2 / c = 0) ∧
      (data.length % (2 * c) = 0 → data ≠ [] →
        decodeAudioData data c
          = Except.ok ((List.range c).map fun channel =>
              (List.range (data.length / (2 * c))).map fun i =>
                ((toInt16 (((data.getD (2 * (i * c + channel)) 0 : ℕ) : ℤ)
                    + 256 * ((data.getD (2 * (i * c + channel) + 1) 0 : ℕ) : ℤ)) : ℤ) : ℚ)
                  / 32768)) := by
  have hfc : (int16OfBytesLE data).length / c = data.length / 2 / c := by
    rw [int16OfBytesLE_length]
  constructor
  · by_cases hodd : data.length % 2 ≠ 0
    · unfold decodeAudioData
      rw [if_pos hodd]
      simp [hodd]
    · push_neg at hodd
      unfold decodeAudioData
      rw [if_neg (by omega)]
      by_cases hzero : (int16OfBytesLE data).length / c = 0
      · rw [if_pos (Or.inr (Or.inr hzero))]
        have hz2 : data.length / 2 / c = 0 := hfc ▸ hzero
        simp [hodd, hz2]
      · rw [if_neg (by push_neg; exact ⟨by omega, by omega, hzero⟩)]
        constructor
        · rintro ⟨msg, hmsg⟩
          exact Except.noConfusion hmsg
        · rintro (h | h)
          · omega
          · rw [← hfc] at h
            exact absurd h hzero
  · intro hdvd hne
    have hlen0 : data.length ≠ 0 := by
      intro h0
      exact hne (List.length_eq_zero.mp h0)
    obtain ⟨m, hm⟩ : ∃ m, data.length = 2 * c * m :=
      Nat.dvd_of_mod_eq_zero hdvd
    have hm0 : m ≠ 0 := by
      intro h0
      rw [h0, Nat.mul_zero] at hm
      exact hlen0 hm
    have heven : data.length % 2 = 0 := by
      rw [hm, show 2 * c * m = 2 * (c * m) by ring]
      exact Nat.mul_mod_right 2 (c * m)
    have hdiv2 : data.length / 2 = c * m := by
      rw [hm, show 2 * c * m = 2 * (c * m) by ring]
      exact Nat.mul_div_cancel_left _ (by norm_num)
    have hframes : data.length / 2 / c = m := by
      rw [hdiv2, Nat.mul_div_cancel_left _ (by omega)]
    have hfc2 : (int16OfBytesLE data).length / c = m := by rw [hfc, hframes]
    have hfc3 : data.length / (2 * c) = m := by
      rw [← Nat.div_div_eq_div_mul, hframes]
    unfold decodeAudioData
    rw [if_neg (by omega)]
    rw [if_neg (by push_neg; exact ⟨by omega, by omega, by rw [hfc2]; exact hm0⟩)]
    rw [hfc2, hfc3]
    refine congrArg Except.ok ?_
    refine List.map_congr_left fun channel hchannel => ?_
    refine List.map_congr_left fun i hi => ?_
    rw [List.mem_range] at hchannel hi
    have hidx : 2 * (i * c + channel) + 1 < data.length := by
      have : i * c + channel + 1 ≤ m * c := by
        calc i * c + channel + 1 ≤ (m - 1) * c + c := by
              have h3 : i ≤ m - 1 := by omega
              have h4 : i * c ≤ (m - 1) * c := Nat.mul_le_mul_right c h3
              omega
          _ = m * c := by
              have h1m : 1 ≤ m := by omega
              have hcm : 1 * c ≤ m * c := Nat.mul_le_mul_right c h1m
              rw [Nat.sub_mul]
              omega
      have hlen2 : data.length = 2 * (m * c) := by rw [hm]; ring
      omega
    rw [int16OfBytesLE_getD data (i * c + channel) hidx]

/-- Witness for C7 (amended) at two zero bytes, one channel. -/
theorem decodeAudioData_result_witness :
    (∃ msg, decodeAudioData [0, 0] 1 = Except.error msg) ↔
      ([0, 0] : List ℕ).length % 2 ≠ 0 ∨ ([0, 0] : List ℕ).length / 2 / 1 = 0 :=
  (decodeAudioData_result [0, 0] 1 (by norm_num) (by norm_num)).1

/-! ## Scheduler theorems (C3, C4, C5) -/

/-- Shared helper: a `scheduleRun` never schedules before its incoming
anchor, and consecutive scheduled chunks are ordered with no overlap. -/
theorem scheduleRun_sound : ∀ (anchor : ℚ) (events : List (ℚ × ℚ)),
    (∀ p ∈ events, 0 ≤ p.2) →
    (∀ q ∈ (scheduleRun anchor events).head?, anchor ≤ q.1) ∧
      (scheduleRun anchor events).Chain' fun a b => a.1 ≤ b.1 ∧ a.1 + a.2 ≤ b.1 := by
  intro anchor events
  induction events generalizing anchor with
  | nil => intro _; simp [scheduleRun]
  | cons p rest ih =>
    intro h
    obtain ⟨now, dur⟩ := p
    have hdur : 0 ≤ dur := h (now, dur) (List.mem_cons_self _ _)
    have hrest : ∀ q ∈ rest, 0 ≤ q.2 := fun q hq => h q (List.mem_cons_of_mem _ hq)
    have ihr := ih (max anchor now + dur) hrest
    constructor
    · intro q hq
      simp only [scheduleRun, List.head?_cons, Option.mem_def, Option.some.injEq] at hq
      subst hq
      exact le_trans (le_max_left _ _) (le_refl _)
    · simp only [scheduleRun]
      rw [List.chain'_cons']
      refine ⟨fun b hb => ?_, ihr.2⟩
      have hb1 := ihr.1 b hb
      exact ⟨le_trans (le_add_of_nonneg_right hdur) hb1, hb1⟩

/-- C3: processing `interrupted` stops every active source, clears the
active set, and resets the anchor — but to zero, not to the clock's
current time.  This counterexample refutes the claimed reset-to-now: at
clock time 5 with anchor 3 and one active source, the handler leaves
the anchor at 0, which differs from the clock time 5. -/
theorem interrupted_resets_anchor_to_zero_not_now :
    (handleInterrupted ⟨3, [7]⟩).1.nextStartTime = 0 ∧ ((0 : ℚ) ≠ 5) := by
  refine ⟨rfl, by norm_num⟩

/-- C3 (amended): on `interrupted`, every currently active source is
stopped, the active set is cleared, and the playback anchor
`nextStartTimeRef` is reset to zero (the `Math.max` with the clock in
the next scheduling step is what prevents past-dated playback). -/
theorem interrupted_stops_clears_and_zeroes (s : SchedState) :
    (handleInterrupted s).2 = s.active ∧
      (handleInterrupted s).1.active = [] ∧
      (handleInterrupted s).1.nextStartTime = 0 := by
  exact ⟨rfl, rfl, rfl⟩

/-- C4: after `interrupted` the active set is empty, and whatever clock
value, duration and source the next audio chunk arrives with, the start
time computed for it (`max(nextStartTimeRef, ctx.currentTime)`) is at
or after the clock's current time — never in the past. -/
theorem interrupt_then_enqueue_not_in_past (s : SchedState) (now dur : ℚ) (srcId : ℕ) :
    (handleInterrupted s).1.active = [] ∧
      now ≤ (scheduleChunk (handleInterrupted s).1 now dur srcId).2 := by
  refine ⟨rfl, ?_⟩
  show now ≤ max (0 : ℚ) now
  exact le_max_right _ _

/-- C5: over any uninterrupted sequence of scheduled chunks (each with
nonnegative duration, as `AudioBuffer.duration` always is), the start
times are non-decreasing and each chunk starts at or after the previous
chunk's end, so no two scheduled ranges overlap. -/
theorem schedule_ordering_no_overlap (anchor : ℚ) (events : List (ℚ × ℚ))
    (h : ∀ p ∈ events, 0 ≤ p.2) :
    (scheduleRun anchor events).Chain' fun a b => a.1 ≤ b.1 ∧ a.1 + a.2 ≤ b.1 :=
  (scheduleRun_sound anchor events h).2

/-- Witness for C5 at a concrete run: anchor 0, a chunk of duration 1
seen at clock 0, then a chunk of duration 1 seen at clock 2. -/
theorem schedule_ordering_no_overlap_witness :
    (∀ p ∈ [((0 : ℚ), (1 : ℚ)), (2, 1)], 0 ≤ p.2) ∧
      (scheduleRun 0 [((0 : ℚ), (1 : ℚ)), (2, 1)]).Chain'
        fun a b => a.1 ≤ b.1 ∧ a.1 + a.2 ≤ b.1 := by
  have h : ∀ p ∈ [((0 : ℚ), (1 : ℚ)), (2, 1)], 0 ≤ p.2 := by
    intro p hp
    simp only [List.mem_cons, List.mem_singleton] at hp
    rcases hp with h1 | h1 | h1 <;> first | (subst h1; norm_num) | cases h1
  exact ⟨h, schedule_ordering_no_overlap 0 _ h⟩

/-! ## Session lifecycle theorems (C2, C8) -/

/-- C2: counterexample to "no audio context remains open".  Starting
from the all-released idle state, a `getUserMedia` denial leaves status
`'Error'` as claimed, but both freshly created audio contexts are still
open: the `catch` block only calls `setStatus('Error')`. -/
theorem start_failure_leaves_contexts_open :
    (startSession ⟨AppStatus.klar, false, false, false, false⟩ StartOutcome.micDenied).status
        = AppStatus.error ∧
      (startSession ⟨AppStatus.klar, false, false, false, false⟩
          StartOutcome.micDenied).inputCtxOpen = true ∧
      (startSession ⟨AppStatus.klar, false, false, false, false⟩
          StartOutcome.micDenied).outputCtxOpen = true := by
  exact ⟨rfl, rfl, rfl⟩

/-- C2 (amended): if `start()` fails at the `getUserMedia` step after
the two audio contexts were created, the exposed status is `'Error'`
and no microphone stream is open (it was never acquired), but both the
input and output audio contexts remain open — the catch block performs
no cleanup. -/
theorem start_failure_status_and_resources (s : AppState) (hmic : s.micOpen = false) :
    (startSession s StartOutcome.micDenied).status = AppStatus.error ∧
      (startSession s StartOutcome.micDenied).micOpen = false ∧
      (startSession s StartOutcome.micDenied).inputCtxOpen = true ∧
      (startSession s StartOutcome.micDenied).outputCtxOpen = true := by
  refine ⟨rfl, ?_, rfl, rfl⟩
  simpa [startSession] using hmic

/-- Witness for C2 (amended) at the all-released idle state. -/
theorem start_failure_status_and_resources_witness :
    (⟨AppStatus.klar, false, false, false, false⟩ : AppState).micOpen = false ∧
      (startSession ⟨AppStatus.klar, false, false, false, false⟩
          StartOutcome.micDenied).status = AppStatus.error :=
  ⟨rfl, (start_failure_status_and_resources
    ⟨AppStatus.klar, false, false, false, false⟩ rfl).1⟩

/-- C8: calling `stopSession` twice is idempotent and performs no
double release: the second call starts from a state whose session
handle, stream and input context are already null, changes nothing,
and performs no release action. -/
theorem stopSession_idempotent_no_double_release (s : StopState) :
    (stopSession (stopSession s).1).1 = (stopSession s).1 ∧
      (stopSession (stopSession s).1).2 = [] := by
  exact ⟨rfl, rfl⟩

/-! ## Conversation log theorems (C1) -/

/-- C1: counterexample.  In the first `turnComplete` handler variant, a
turn-complete message processed while both transcript strings are empty
still appends a history entry (with empty texts), contradicting the
claimed "appends no entry" half of the iff. -/
theorem turnComplete_empty_appends_in_first_variant :
    (onmessageFirst ⟨"", "", []⟩ ⟨none, none, true, false⟩).history
      = [⟨"", ""⟩] := by
  rfl

/-- C1 (amended): the guarded handler variant appends exactly one
history entry iff the message is turn-complete and both the source and
translated transcripts are non-empty at processing time; the first
variant appends one entry on every turn-complete message regardless of
the transcripts' emptiness. -/
theorem history_append_iff (s : ConvState) (m : ServerMsg) :
    ((onmessageGuarded s m).history.length = s.history.length + 1 ↔
        m.turnComplete ∧ s.transcript ≠ "" ∧ s.translation ≠ "") ∧
      (onmessageFirst s m).history.length
        = s.history.length + (if m.turnComplete then 1 else 0) := by
  constructor
  · simp only [onmessageGuarded]
    split
    · next h => simpa using h
    · next h => simp [h]
  · simp only [onmessageFirst]
    split
    · simp
    · simp

/-! ## Request/response translation theorems (C9) -/

/-- C9: counterexample.  For whitespace-only input the function returns
`''` without consulting the backend: neither the backend's translated
text (here `"Hola"`) nor either sentinel error string. -/
theorem translateText_blank_input_returns_empty :
    translateText " " "English" (BackendResult.ok (some "Hola")) = "" ∧
      ("" : String) ≠ "Hola" ∧
      ("" : String) ≠ "Translation failed" ∧
      ("" : String) ≠ "Error in translation service" := by
  refine ⟨?_, by decide, by decide, by decide⟩
  decide

/-- C9 (amended): `translateText` is total (never throws).  When the
input trims to the empty string it returns `''` without calling the
backend; otherwise it returns the backend's trimmed text when that is
non-empty, the sentinel `'Translation failed'` when the backend
produces no usable text, and the sentinel
`'Error in translation service'` when the backend call fails. -/
theorem translateText_cases (text lang : String) (b : BackendResult) :
    (jsTrim text = "" → translateText text lang b = "") ∧
      (jsTrim text ≠ "" → b = BackendResult.failure →
        translateText text lang b = "Error in translation service") ∧
      (jsTrim text ≠ "" → ∀ t, b = BackendResult.ok t → jsTrim (t.getD "") = "" →
        translateText text lang b = "Translation failed") ∧
      (jsTrim text ≠ "" → ∀ r, b = BackendResult.ok (some r) → jsTrim r ≠ "" →
        translateText text lang b = jsTrim r) := by
  refine ⟨fun h => by simp [translateText, h], fun h hb => ?_, fun h t hb ht => ?_,
    fun h r hb hr => ?_⟩
  · subst hb; simp [translateText, h]
  · subst hb; simp [translateText, h, ht]
  · subst hb; simp [translateText, h, hr]

/-- Witness for C9 (amended): a failing backend call on non-blank
input yields the failure sentinel. -/
theorem translateText_cases_witness :
    jsTrim "hi" ≠ "" ∧
      translateText "hi" "English" BackendResult.failure = "Error in translation service" :=
  ⟨by decide, (translateText_cases "hi" "English" BackendResult.failure).2.1 (by decide) rfl⟩

end Translator
